import Mathlib

/-
  Verification of the wealth-advisor portfolio dashboard.

  The numeric semantics of the JavaScript source is embedded over the exact
  rationals: every JSON/JS number is modelled as a value of type ℚ, and every
  field that the code guards with a falsy-default (written `x || 0` or
  `x || "Manual"` in the source) is modelled as an `Option` read with a
  default.  JS `Math.round x` is `⌊x + 1/2⌋` (round half toward positive
  infinity) and JS `Array.sort` with the comparator `(a, b) => key b - key a`
  is a stable descending sort by `key`.
-/

namespace WealthAdvisor

/-- A holding as the frontend receives it from the backend portfolio payload
(`data.holdings` in `Dashboard.jsx`).  String fields absent in a manual entry
are empty strings; `amc` and `current_value` are read through falsy defaults
by the display code, hence `Option`. -/
structure Holding where
  scheme_name : String := ""
  isin : String := ""
  asset_class : String := ""
  amc : Option String := none
  folio : String := ""
  units : ℚ := 0
  nav : ℚ := 0
  current_value : Option ℚ := none
  invested_amount : ℚ := 0
  absolute_return : ℚ := 0
  percentage_return : ℚ := 0
  source : String := ""
  valuation_date : String := ""
  deriving Repr, DecidableEq

/-- One entry of the backend `asset_allocation` array consumed by
`getCombinedAssetAllocation` (fields read as `item.value || 0` and
`item.scheme_count || 0`). -/
structure AllocItem where
  asset_class : String := ""
  value : Option ℚ := none
  scheme_count : Option ℕ := none
  deriving Repr, DecidableEq

/-- The value stored in `allocationMap` while `getCombinedAssetAllocation`
builds its grouping. -/
structure AllocEntry where
  asset_class : String := ""
  value : ℚ := 0
  scheme_count : ℕ := 0
  deriving Repr, DecidableEq

/-- One row of the combined allocation table returned by
`getCombinedAssetAllocation`: an `AllocEntry` extended with the computed
`percentage`. -/
structure AllocOut where
  asset_class : String := ""
  value : ℚ := 0
  scheme_count : ℕ := 0
  percentage : ℚ := 0
  deriving Repr, DecidableEq, Inhabited

/-- JS `Math.round`: round to the nearest integer, half toward positive
infinity, i.e. `⌊x + 1/2⌋`. -/
def jsRound (q : ℚ) : ℤ := ⌊q + 1/2⌋

/-- Round to the nearest integer with ties broken toward the even neighbour.
Modelled from the spec: the spec asks for "ties in rounding broken by standard
round-half-to-even"; this definition exists only to compare that demand with
what the code computes. -/
def roundHalfEven (q : ℚ) : ℤ :=
  if q - ⌊q⌋ < 1/2 then ⌊q⌋
  else if 1/2 < q - ⌊q⌋ then ⌊q⌋ + 1
  else if 2 ∣ ⌊q⌋ then ⌊q⌋ else ⌊q⌋ + 1

/-- JS `String.prototype.toLowerCase` restricted to the ASCII data the asset
class labels use. -/
def jsToLower (s : String) : String := String.mk (s.data.map Char.toLower)

/-- JS `String.prototype.replace of a one-character pattern: replace only the
first occurrence of an underscore with a space. -/
def replaceFirstUnderscore : List Char → List Char
  | [] => []
  | c :: cs => if c = '_' then ' ' :: cs else c :: replaceFirstUnderscore cs

/-- `h.asset_class.charAt(0).toUpperCase() + h.asset_class.slice(1).replace(
underscore, space)` from the manual branch of `getCombinedAssetAllocation`. -/
def jsCapitalizeAssetClass (s : String) : String :=
  match s.data with
  | [] => ""
  | c :: cs => String.mk (c.toUpper :: replaceFirstUnderscore cs)

/-- The `allocationMap` JS object: an insertion-ordered association list with
unique string keys. -/
abbrev AllocMap := List (String × AllocEntry)

/-- `allocationMap[key]` read access. -/
def mapGet (m : AllocMap) (k : String) : Option AllocEntry :=
  (m.find? (fun kv => kv.1 = k)).map (fun kv => kv.2)

/-- `allocationMap[key] = v`: overwrite in place when the key exists (JS
objects keep the original insertion position), otherwise append. -/
def mapSet (m : AllocMap) (k : String) (v : AllocEntry) : AllocMap :=
  if (m.find? (fun kv => kv.1 = k)).isSome then
    m.map (fun kv => if kv.1 = k then (k, v) else kv)
  else m ++ [(k, v)]

/-- In-place field update of `allocationMap[key]` (the `+=` statements of the
manual-holdings loop). -/
def mapUpdate (m : AllocMap) (k : String) (f : AllocEntry → AllocEntry) : AllocMap :=
  m.map (fun kv => if kv.1 = k then (kv.1, f kv.2) else kv)

/-- First loop of `getCombinedAssetAllocation`: fold the backend
`asset_allocation` array into the map. -/
def addBackendItem (m : AllocMap) (item : AllocItem) : AllocMap :=
  mapSet m (jsToLower item.asset_class)
    { asset_class := item.asset_class
      value := item.value.getD 0
      scheme_count := item.scheme_count.getD 0 }

/-- Second loop of `getCombinedAssetAllocation`: fold one manual holding into
the map (create a zero entry when the key is new, then accumulate value and
count). -/
def addManualHolding (m : AllocMap) (h : Holding) : AllocMap :=
  let key := jsToLower h.asset_class
  let m1 :=
    if (mapGet m key).isSome then m
    else m ++ [(key,
      { asset_class := jsCapitalizeAssetClass h.asset_class
        value := 0
        scheme_count := 0 })]
  mapUpdate m1 key (fun e =>
    { e with value := e.value + h.current_value.getD 0
             scheme_count := e.scheme_count + 1 })

/-- The `Object.values(allocationMap)` list after both loops of
`getCombinedAssetAllocation` have run. -/
def combinedAllocationEntries (assetAllocation : List AllocItem)
    (manualHoldings : List Holding) : List AllocEntry :=
  ((manualHoldings.foldl addManualHolding
      (assetAllocation.foldl addBackendItem [])).map (fun kv => kv.2))

/-- `const total = Object.values(allocationMap).reduce((sum, item) => sum +
item.value, 0)`. -/
def allocationTotal (assetAllocation : List AllocItem)
    (manualHoldings : List Holding) : ℚ :=
  (combinedAllocationEntries assetAllocation manualHoldings).foldl
    (fun sum item => sum + item.value) 0

/-- The percentage attached to one grouped entry: `total > 0 ?
Math.round((item.value / total) * 10000) / 100 : 0`. -/
def pctOf (total value : ℚ) : ℚ :=
  if 0 < total then (jsRound (value / total * 10000) : ℚ) / 100 else 0

/-- Stable insertion of one element into a list sorted in non-increasing
`key` order: the element is placed after every earlier element with a
strictly larger key and before the rest (the order JS stable `sort` with
comparator `(a, b) => key b - key a` produces). -/
def insertByDesc (key : α → ℚ) (a : α) : List α → List α
  | [] => [a]
  | b :: l => if key a < key b then b :: insertByDesc key a l else a :: b :: l

/-- Stable descending sort by a rational key, modelling JS
`arr.sort((a, b) => key b - key a)`. -/
def sortByDesc (key : α → ℚ) : List α → List α
  | [] => []
  | b :: l => insertByDesc key b (sortByDesc key l)

/-- `getCombinedAssetAllocation` from `Dashboard.jsx`: group the backend
allocation and the manual holdings by lower-cased asset class, attach
percentages of the combined total, drop groups whose value is not positive,
and sort descending by value. -/
def getCombinedAssetAllocation (assetAllocation : List AllocItem)
    (manualHoldings : List Holding) : List AllocOut :=
  let vals := combinedAllocationEntries assetAllocation manualHoldings
  let total := allocationTotal assetAllocation manualHoldings
  sortByDesc (fun o => o.value)
    ((vals.map (fun e =>
      { asset_class := e.asset_class
        value := e.value
        scheme_count := e.scheme_count
        percentage := pctOf total e.value : AllocOut })).filter
      (fun o => decide (0 < o.value)))

/-- `holdings.filter(h => h.source === 'manual')` from `Dashboard.jsx`. -/
def manualHoldingsOf (holdings : List Holding) : List Holding :=
  holdings.filter (fun h => h.source = "manual")

/-- `manualHoldings.reduce((sum, h) => sum + (h.current_value || 0), 0)`. -/
def manualTotalValue (holdings : List Holding) : ℚ :=
  (manualHoldingsOf holdings).foldl (fun sum h => sum + h.current_value.getD 0) 0

/-- The backend summary object as the Dashboard reads it (`summary.total_value
|| 0`, `summary.scheme_count || 0`, `summary.folio_count || 0`). -/
structure Summary where
  total_value : Option ℚ := none
  scheme_count : Option ℕ := none
  folio_count : Option ℕ := none
  deriving Repr, DecidableEq

/-- `const totalPortfolioValue = (summary.total_value || 0) +
manualTotalValue` from `Dashboard.jsx`: the Portfolio Value card. -/
def totalPortfolioValue (summary : Summary) (holdings : List Holding) : ℚ :=
  summary.total_value.getD 0 + manualTotalValue holdings

/-- `const totalSchemeCount = (summary.scheme_count || 0) +
manualHoldings.length` from `Dashboard.jsx`: the Schemes card. -/
def totalSchemeCount (summary : Summary) (holdings : List Holding) : ℕ :=
  summary.scheme_count.getD 0 + (manualHoldingsOf holdings).length

/-- Modelled from the spec: the backend Analytics Engine is not part of the
checked sources (only the React frontend is), so the summary it serves is
taken from the spec text: `total_value` = sum of current_value,
`scheme_count` = count of holdings, `folio_count` = count of distinct
non-empty folio values, computed over the merged holdings list (which, per
the spec and the frontend comments, already contains the manual-source
holdings). -/
def specSummary (holdings : List Holding) : Summary :=
  { total_value := some ((holdings.map (fun h => h.current_value.getD 0)).sum)
    scheme_count := some holdings.length
    folio_count := some (((holdings.map (fun h => h.folio)).filter
      (fun f => f ≠ "")).dedup.length) }

/-- `handleSubmit` of `ManualEntryModal`: the holding object posted to the
backend, computed from the parsed form fields.  `units`, `purchase_nav` and
`current_nav` are the values of `parseFloat(...) || 0`; `today` stands for
`new Date().toISOString().split('T')[0]`. -/
def manualEntrySubmit (scheme_name asset_class : String)
    (units purchase_nav current_nav : ℚ) (amc today : String) : Holding :=
  let invested := units * purchase_nav
  let currentValue := units * current_nav
  let absoluteReturn := currentValue - invested
  let pctReturn := if 0 < invested then absoluteReturn / invested * 100 else 0
  { scheme_name := scheme_name
    asset_class := asset_class
    units := units
    nav := current_nav
    current_value := some currentValue
    invested_amount := invested
    absolute_return := absoluteReturn
    percentage_return := pctReturn
    amc := some (if amc = "" then "Manual" else amc)
    isin := ""
    folio := ""
    source := "manual"
    valuation_date := today }

/-- `normalizeAssetClass` from `HoldingsTab`: map the legacy label `other` to
`mutual_funds`, leave every other label unchanged. -/
def normalizeAssetClass (cls : String) : String :=
  if cls = "other" then "mutual_funds" else cls

/-- The `nameMap` lookup table of `getDisplayName` in `OverviewTab`. -/
def overviewNameMap (key : String) : Option String :=
  if key = "other" then some "Mutual Funds"
  else if key = "equity" then some "Equity"
  else if key = "mutual_funds" then some "Mutual Funds"
  else if key = "us_equity" then some "US Equity"
  else if key = "crypto" then some "Crypto"
  else if key = "cash" then some "Cash"
  else if key = "debt" then some "Debt"
  else if key = "gold" then some "Gold"
  else if key = "hybrid" then some "Hybrid"
  else none

/-- `getDisplayName` from `OverviewTab`: `nameMap[assetClass.toLowerCase()]
|| assetClass`. -/
def getDisplayName (assetClass : String) : String :=
  (overviewNameMap (jsToLower assetClass)).getD assetClass

/-- `const allHoldings = holdings.map(h => ({ ...h, asset_class:
normalizeAssetClass(h.asset_class) }))` from `HoldingsTab`. -/
def holdingsTabAllHoldings (holdings : List Holding) : List Holding :=
  holdings.map (fun h => { h with asset_class := normalizeAssetClass h.asset_class })

/-- `getCounts` from `HoldingsTab`: the count badge of one asset-class filter
tab. -/
def getCounts (holdings : List Holding) (key : String) : ℕ :=
  if key = "all" then (holdingsTabAllHoldings holdings).length
  else ((holdingsTabAllHoldings holdings).filter
    (fun h => h.asset_class = key)).length

/-- `holding.amc || 'Manual'` as rendered by `HoldingsTab` and by the Top 5
list of `OverviewTab`. -/
def displayedAmc (amc : Option String) : String :=
  match amc with
  | none => "Manual"
  | some s => if s = "" then "Manual" else s

/-- `const allHoldings = [...holdings].sort((a, b) => (b.current_value || 0)
- (a.current_value || 0))` from `OverviewTab`. -/
def overviewAllHoldings (holdings : List Holding) : List Holding :=
  sortByDesc (fun h => h.current_value.getD 0) holdings

/-- `allHoldings.slice(0, 5)`: the Top 5 Holdings list of `OverviewTab`. -/
def topFiveHoldings (holdings : List Holding) : List Holding :=
  (overviewAllHoldings holdings).take 5

/-- Modelled from the spec: one ingested statement of the backend data model
(the backend itself is not among the checked sources).  `source_id` is the
content fingerprint of the raw uploaded file. -/
structure StatementSource where
  source_id : ℕ
  holdings : List Holding
  deriving Repr, DecidableEq

/-- Modelled from the spec: the per-user Portfolio record, a set of
statement sources keyed by fingerprint plus the manual-holdings mapping. -/
structure Portfolio where
  sources : List StatementSource := []
  manual_holdings : List (String × Holding) := []
  deriving Repr, DecidableEq

/-- Modelled from the spec: the Source Deduplicator gate of the upload path
(backend code absent from the checked sources).  `fp` is the deterministic
content fingerprint over the file bytes and `normalize` the Statement
Normalizer; if a StatementSource with the fingerprint of the uploaded bytes
already exists the upload is a no-op returning the unchanged Portfolio,
otherwise the normalized statement is added as a new source. -/
def uploadStatement (fp : List ℕ → ℕ) (normalize : List ℕ → List Holding)
    (p : Portfolio) (bytes : List ℕ) : Portfolio :=
  if p.sources.any (fun s => s.source_id = fp bytes) then p
  else { p with sources := p.sources ++ [⟨fp bytes, normalize bytes⟩] }

/-- Evaluation rule for `jsRound` at a concrete point: it returns `n` exactly
when `n ≤ q + 1/2 < n + 1`. -/
theorem jsRound_eq_of (q : ℚ) (n : ℤ) (h1 : (n : ℚ) ≤ q + 1/2) (h2 : q + 1/2 < n + 1) :
    jsRound q = n := by
  rw [jsRound]
  exact Int.floor_eq_iff.mpr ⟨by exact_mod_cast h1, by exact_mod_cast h2⟩

/-- `Math.round` never moves a value by more than one half. -/
theorem abs_jsRound_sub_le (q : ℚ) : |(jsRound q : ℚ) - q| ≤ 1/2 := by
  rw [abs_le, jsRound]
  constructor
  · have h := Int.lt_floor_add_one (q + 1/2)
    push_cast at h
    linarith
  · have h := Int.floor_le (q + 1/2)
    linarith

/-- `Math.round 0 = 0`. -/
theorem jsRound_zero : jsRound 0 = 0 :=
  jsRound_eq_of 0 0 (by norm_num) (by norm_num)

/-- Inserting into the descending-sorted list permutes to consing. -/
theorem insertByDesc_perm (key : α → ℚ) (a : α) (l : List α) :
    (insertByDesc key a l).Perm (a :: l) := by
  induction l with
  | nil => simp [insertByDesc]
  | cons b l ih =>
    rw [insertByDesc]
    by_cases h : key a < key b
    · rw [if_pos h]
      exact (ih.cons b).trans (List.Perm.swap a b l)
    · rw [if_neg h]

/-- The descending sort is a permutation of its input. -/
theorem sortByDesc_perm (key : α → ℚ) (l : List α) : (sortByDesc key l).Perm l := by
  induction l with
  | nil => simp [sortByDesc]
  | cons b l ih =>
    rw [sortByDesc]
    exact (insertByDesc_perm key b (sortByDesc key l)).trans (ih.cons b)

/-- Insertion preserves the non-increasing-key ordering. -/
theorem insertByDesc_pairwise (key : α → ℚ) (a : α) (l : List α)
    (h : l.Pairwise (fun x y => key y ≤ key x)) :
    (insertByDesc key a l).Pairwise (fun x y => key y ≤ key x) := by
  induction l with
  | nil => simp [insertByDesc]
  | cons b l ih =>
    rw [List.pairwise_cons] at h
    obtain ⟨hb, hl⟩ := h
    rw [insertByDesc]
    by_cases hab : key a < key b
    · rw [if_pos hab]
      refine List.pairwise_cons.mpr ⟨?_, ih hl⟩
      intro x hx
      rcases List.mem_cons.mp ((insertByDesc_perm key a l).mem_iff.mp hx) with rfl | hx
      · exact le_of_lt hab
      · exact hb x hx
    · rw [if_neg hab]
      refine List.pairwise_cons.mpr ⟨?_, List.pairwise_cons.mpr ⟨hb, hl⟩⟩
      intro x hx
      rcases List.mem_cons.mp hx with rfl | hx
      · exact le_of_not_lt hab
      · exact (hb x hx).trans (le_of_not_lt hab)

/-- The descending sort produces a non-increasing key sequence. -/
theorem sortByDesc_pairwise (key : α → ℚ) (l : List α) :
    (sortByDesc key l).Pairwise (fun x y => key y ≤ key x) := by
  induction l with
  | nil => simp [sortByDesc]
  | cons b l ih =>
    rw [sortByDesc]
    exact insertByDesc_pairwise key b _ ih

/-- Every row of the combined allocation table is built from one grouped
entry, with the percentage computed by `pctOf` at the combined total. -/
theorem mem_getCombinedAssetAllocation {items : List AllocItem} {manual : List Holding}
    {o : AllocOut} (ho : o ∈ getCombinedAssetAllocation items manual) :
    ∃ e ∈ combinedAllocationEntries items manual,
      o = { asset_class := e.asset_class, value := e.value, scheme_count := e.scheme_count,
            percentage := pctOf (allocationTotal items manual) e.value } := by
  simp only [getCombinedAssetAllocation] at ho
  have h1 := (sortByDesc_perm (fun o : AllocOut => o.value) _).mem_iff.mp ho
  have h2 := (List.mem_filter.mp h1).1
  obtain ⟨e, he, rfl⟩ := List.mem_map.mp h2
  exact ⟨e, he, rfl⟩

/-- Claim C9: the overview sorts the holdings list in non-increasing
`current_value` order (a missing `current_value` counting as 0), the sorted
sequence is a permutation of the input, and the Top 5 list is exactly the
first five elements of that order. -/
theorem claim_C9_overview_ordering (holdings : List Holding) :
    (overviewAllHoldings holdings).Pairwise
      (fun a b => b.current_value.getD 0 ≤ a.current_value.getD 0)
    ∧ (overviewAllHoldings holdings).Perm holdings
    ∧ topFiveHoldings holdings = (overviewAllHoldings holdings).take 5 :=
  ⟨sortByDesc_pairwise _ _, sortByDesc_perm _ _, rfl⟩

/-- Claim C10: every row of the combined allocation table has strictly
positive value (zero or negative groups are filtered out) and the table is
sorted in non-increasing value order. -/
theorem claim_C10_allocation_positive_sorted (items : List AllocItem)
    (manual : List Holding) :
    (getCombinedAssetAllocation items manual).all (fun o => decide (0 < o.value)) = true
    ∧ (getCombinedAssetAllocation items manual).Pairwise (fun a b => b.value ≤ a.value) := by
  constructor
  · rw [List.all_eq_true]
    intro o ho
    simp only [getCombinedAssetAllocation] at ho
    have h1 := (sortByDesc_perm (fun o : AllocOut => o.value) _).mem_iff.mp ho
    exact (List.mem_filter.mp h1).2
  · exact sortByDesc_pairwise (fun o : AllocOut => o.value) _

/-- Claim C4: a manual entry submitted with units `u`, purchase price `p` and
current price `c` is posted with `current_value = u * c`, `invested_amount =
u * p`, `absolute_return = u * c - u * p`, and `percentage_return` equal to
`absolute_return / invested_amount * 100` when the invested amount is
positive and 0 otherwise; for `u = 1/2`, `p = 30000`, `c = 60000` this gives
current value 30000, absolute return 15000 and percentage return 100, in the
`crypto` asset class. -/
theorem claim_C4_manual_entry_computation (scheme cls : String) (u p c : ℚ)
    (amc today : String) :
    (manualEntrySubmit scheme cls u p c amc today).current_value = some (u * c)
    ∧ (manualEntrySubmit scheme cls u p c amc today).invested_amount = u * p
    ∧ (manualEntrySubmit scheme cls u p c amc today).absolute_return = u * c - u * p
    ∧ (manualEntrySubmit scheme cls u p c amc today).percentage_return
        = (if 0 < u * p then (u * c - u * p) / (u * p) * 100 else 0)
    ∧ (manualEntrySubmit "Bitcoin" "crypto" (1/2) 30000 60000 amc today).current_value
        = some 30000
    ∧ (manualEntrySubmit "Bitcoin" "crypto" (1/2) 30000 60000 amc today).absolute_return
        = 15000
    ∧ (manualEntrySubmit "Bitcoin" "crypto" (1/2) 30000 60000 amc today).percentage_return
        = 100
    ∧ (manualEntrySubmit "Bitcoin" "crypto" (1/2) 30000 60000 amc today).asset_class
        = "crypto" := by
  refine ⟨rfl, rfl, rfl, rfl, ?_, ?_, ?_, rfl⟩ <;> norm_num [manualEntrySubmit]

/-- Claim C7: the legacy label `other` is a synonym for `mutual_funds` in the
display layer: normalization maps `other` to `mutual_funds` and changes no
other label, the display-name table renders both as "Mutual Funds", and the
`mutual_funds` tab count includes holdings labelled `other`. -/
theorem claim_C7_legacy_other_label :
    normalizeAssetClass "other" = "mutual_funds"
    ∧ (∀ cls : String, cls ≠ "other" → normalizeAssetClass cls = cls)
    ∧ getDisplayName "other" = "Mutual Funds"
    ∧ getDisplayName "mutual_funds" = "Mutual Funds"
    ∧ ∀ hs : List Holding, getCounts hs "mutual_funds" =
        (hs.filter (fun h =>
          h.asset_class = "other" ∨ h.asset_class = "mutual_funds")).length := by
  refine ⟨rfl, fun cls h => if_neg h, by decide, by decide, fun hs => ?_⟩
  have hpt : ∀ h : Holding,
      decide (normalizeAssetClass h.asset_class = "mutual_funds")
        = decide (h.asset_class = "other" ∨ h.asset_class = "mutual_funds") := by
    intro h
    by_cases hc : h.asset_class = "other"
    · simp [normalizeAssetClass, hc]
    · simp [normalizeAssetClass, hc]
  rw [getCounts, if_neg (by decide)]
  rw [holdingsTabAllHoldings, List.filter_map, List.length_map]
  apply congrArg
  apply List.filter_congr
  intro h _
  simpa using hpt h

/-- Claim C8: a manual entry submitted with an empty broker field is posted
with `amc = "Manual"` and a non-empty broker value is kept unchanged; the
holdings display renders "Manual" whenever the `amc` of a holding is absent
or empty and keeps any non-empty `amc`. -/
theorem claim_C8_amc_default_manual :
    (∀ scheme cls : String, ∀ u p c : ℚ, ∀ today : String,
      (manualEntrySubmit scheme cls u p c "" today).amc = some "Manual")
    ∧ (∀ scheme cls : String, ∀ u p c : ℚ, ∀ amc today : String, amc ≠ "" →
      (manualEntrySubmit scheme cls u p c amc today).amc = some amc)
    ∧ displayedAmc none = "Manual"
    ∧ displayedAmc (some "") = "Manual"
    ∧ ∀ s : String, s ≠ "" → displayedAmc (some s) = s := by
  refine ⟨fun _ _ _ _ _ _ => rfl, fun _ _ _ _ _ amc _ h => ?_, rfl, rfl, fun s h => ?_⟩
  · simp [manualEntrySubmit, h]
  · simp [displayedAmc, h]

/-- Witness for claim C7 at a concrete label. -/
theorem claim_C7_witness : normalizeAssetClass "equity" = "equity" :=
  claim_C7_legacy_other_label.2.1 "equity" (by decide)

/-- Witness for claim C8 at a concrete non-empty broker name. -/
theorem claim_C8_witness : displayedAmc (some "Coinbase") = "Coinbase" :=
  claim_C8_amc_default_manual.2.2.2.2 "Coinbase" (by decide)

/-- Claim C6: uploading the same byte string twice yields the portfolio of a
single upload, and an upload whose fingerprint already has a StatementSource
returns the portfolio unchanged (no second source, no duplicated holdings);
stated for every fingerprint function, normalizer, portfolio and byte
string. -/
theorem claim_C6_upload_idempotent (fp : List ℕ → ℕ) (normalize : List ℕ → List Holding)
    (p : Portfolio) (bytes : List ℕ) :
    uploadStatement fp normalize (uploadStatement fp normalize p bytes) bytes
      = uploadStatement fp normalize p bytes
    ∧ (p.sources.any (fun s => s.source_id = fp bytes) = true →
        uploadStatement fp normalize p bytes = p) := by
  by_cases h : p.sources.any (fun s => s.source_id = fp bytes) = true
  · have hup : uploadStatement fp normalize p bytes = p := by
      rw [uploadStatement, if_pos h]
    rw [hup]
    exact ⟨hup, fun _ => rfl⟩
  · have hup : uploadStatement fp normalize p bytes
        = { p with sources := p.sources ++ [⟨fp bytes, normalize bytes⟩] } := by
      rw [uploadStatement, if_neg h]
    refine ⟨?_, fun hc => absurd hc h⟩
    have hmem : (({ p with sources := p.sources ++ [⟨fp bytes, normalize bytes⟩]
        } : Portfolio).sources.any (fun s => s.source_id = fp bytes)) = true := by
      simp
    rw [hup, uploadStatement, if_pos hmem]

/-- Witness for claim C6: a duplicate upload against a portfolio already
holding the fingerprint of the bytes is a no-op. -/
theorem claim_C6_witness :
    uploadStatement (fun _ => 7) (fun _ => [])
      ⟨[⟨7, []⟩], []⟩ [1, 2, 3] = ⟨[⟨7, []⟩], []⟩ :=
  (claim_C6_upload_idempotent (fun _ => 7) (fun _ => [])
    ⟨[⟨7, []⟩], []⟩ [1, 2, 3]).2 (by decide)

/-- A manual-source holding worth 100, as the backend serves it inside the
merged holdings list. -/
def c1Holding : Holding :=
  { scheme_name := "Bitcoin", asset_class := "crypto", amc := some "Manual",
    current_value := some 100, source := "manual" }

/-- A backend allocation whose Equity group sits at exactly 12.125 percent of
the total (97 out of 800). -/
def exItems : List AllocItem :=
  [⟨"Equity", some 97, some 1⟩, ⟨"Debt", some 703, some 1⟩]

/-- A backend allocation with combined total 0 but a positive group. -/
def c3Items : List AllocItem :=
  [⟨"Equity", some 5, some 1⟩, ⟨"Debt", some (-5), some 1⟩]

/-- Lower-casing the concrete label "Equity". -/
theorem lowEquity : jsToLower "Equity" = "equity" := by decide

/-- Lower-casing the concrete label "Debt". -/
theorem lowDebt : jsToLower "Debt" = "debt" := by decide

/-- `Math.round` at the exact tie 1212.5 rounds up to 1213. -/
theorem jsRound_tie_up : jsRound (2425/2 : ℚ) = 1213 :=
  jsRound_eq_of _ _ (by norm_num) (by norm_num)

/-- `Math.round` at the exact tie 8787.5 rounds up to 8788. -/
theorem jsRound_tie_up2 : jsRound (17575/2 : ℚ) = 8788 :=
  jsRound_eq_of _ _ (by norm_num) (by norm_num)

/-- The combined total of `exItems` with no manual holdings. -/
theorem exItems_total : allocationTotal exItems [] = 800 := by
  norm_num +decide [allocationTotal, combinedAllocationEntries, addBackendItem,
    mapSet, exItems, lowEquity, lowDebt, List.find?]

/-- Full evaluation of the combined allocation on `exItems`: the code rounds
both half-ties upward. -/
theorem exItems_eval :
    getCombinedAssetAllocation exItems []
      = [⟨"Debt", 703, 1, 2197/25⟩, ⟨"Equity", 97, 1, 1213/100⟩] := by
  norm_num +decide [getCombinedAssetAllocation, combinedAllocationEntries,
    allocationTotal, addBackendItem, mapSet, exItems, lowEquity, lowDebt, pctOf,
    sortByDesc, insertByDesc, List.find?, jsRound_tie_up, jsRound_tie_up2]

/-- Claim C1 (failing input): with the merged holdings list containing one
manual holding worth 100, the spec summary has `total_value` 100 and
`scheme_count` 1, yet the Dashboard cards, which add `manualTotalValue` and
the manual count on top of the summary, display 200 and 2 — the displayed
total is not the sum of current_value over the holdings, the manual holding
being counted twice. -/
theorem claim_C1_dashboard_double_counts :
    totalPortfolioValue (specSummary [c1Holding]) [c1Holding] = 200
    ∧ (specSummary [c1Holding]).total_value = some 100
    ∧ totalSchemeCount (specSummary [c1Holding]) [c1Holding] = 2
    ∧ (specSummary [c1Holding]).scheme_count = some 1
    ∧ ¬ totalPortfolioValue (specSummary [c1Holding]) [c1Holding]
        = ([c1Holding].map (fun h => h.current_value.getD 0)).sum := by
  refine ⟨?_, ?_, ?_, ?_, ?_⟩ <;>
    norm_num +decide [totalPortfolioValue, totalSchemeCount, specSummary,
      manualTotalValue, manualHoldingsOf, c1Holding]

/-- Claim C2 is false on the code: at the 97-of-800 input the unrounded
Equity percentage is exactly 12.125, the code returns 12.13 (`Math.round`
ties go up), while round-half-to-even demands the even neighbour 12.12. -/
theorem claim_C2_counterexample :
    allocationTotal exItems [] = 800
    ∧ (97 : ℚ) / 800 * 100 = 12125 / 1000
    ∧ getCombinedAssetAllocation exItems []
        = [⟨"Debt", 703, 1, 2197/25⟩, ⟨"Equity", 97, 1, 1213/100⟩]
    ∧ roundHalfEven ((97 : ℚ) / 800 * 10000) = 1212
    ∧ ¬ ((1213 : ℚ) / 100) = (1212 : ℚ) / 100 := by
  refine ⟨exItems_total, by norm_num, exItems_eval, ?_, by norm_num⟩
  have hf : ⌊(97 : ℚ) / 800 * 10000⌋ = 1212 :=
    Int.floor_eq_iff.mpr ⟨by norm_num, by norm_num⟩
  norm_num [roundHalfEven, hf]

/-- Claim C2 (amended): whenever the combined total is positive, every
percentage in the combined allocation table equals the group value divided by
the total, times 100, rounded to two decimals with ties rounded half up
(toward positive infinity), i.e. `Math.round((value / total) * 10000) /
100`. -/
theorem claim_C2_percentage_rounding (items : List AllocItem) (manual : List Holding)
    (htotal : 0 < allocationTotal items manual) :
    ∀ o ∈ getCombinedAssetAllocation items manual,
      o.percentage
        = (⌊o.value / allocationTotal items manual * 10000 + 1/2⌋ : ℚ) / 100 := by
  intro o ho
  obtain ⟨e, _, rfl⟩ := mem_getCombinedAssetAllocation ho
  simp [pctOf, if_pos htotal, jsRound]

/-- Witness for the amended claim C2 at the concrete 97-of-800 input. -/
theorem claim_C2_witness :
    0 < allocationTotal exItems []
    ∧ (getCombinedAssetAllocation exItems []).headI.percentage
        = (⌊(getCombinedAssetAllocation exItems []).headI.value
            / allocationTotal exItems [] * 10000 + 1/2⌋ : ℚ) / 100 := by
  have htot : 0 < allocationTotal exItems [] := by rw [exItems_total]; norm_num
  refine ⟨htot, claim_C2_percentage_rounding exItems [] htot _ ?_⟩
  rw [exItems_eval]
  simp

/-- Claim C3: whenever the combined total is 0, every row of the combined
allocation table reports percentage 0: the division sits under the `total >
0` guard, so the zero-total branch is total and no division by zero is ever
evaluated. -/
theorem claim_C3_zero_total_percentages (items : List AllocItem)
    (manual : List Holding) (htotal : allocationTotal items manual = 0) :
    ∀ o ∈ getCombinedAssetAllocation items manual, o.percentage = 0 := by
  intro o ho
  obtain ⟨e, _, rfl⟩ := mem_getCombinedAssetAllocation ho
  simp [pctOf, htotal]

/-- Witness for claim C3 at an input whose groups sum to 0 while one group
is positive (so the table is non-empty). -/
theorem claim_C3_witness :
    allocationTotal c3Items [] = 0
    ∧ (getCombinedAssetAllocation c3Items []).headI.percentage = 0 := by
  have htot : allocationTotal c3Items [] = 0 := by
    norm_num +decide [allocationTotal, combinedAllocationEntries, addBackendItem,
      mapSet, c3Items, lowEquity, lowDebt, List.find?]
  have hev : getCombinedAssetAllocation c3Items []
      = [⟨"Equity", 5, 1, 0⟩] := by
    norm_num +decide [getCombinedAssetAllocation, combinedAllocationEntries,
      allocationTotal, addBackendItem, mapSet, c3Items, lowEquity, lowDebt, pctOf,
      sortByDesc, insertByDesc, List.find?]
  refine ⟨htot, claim_C3_zero_total_percentages c3Items [] htot _ ?_⟩
  rw [hev]
  simp

/-- `allocationMap[key] = v` keeps every stored group value non-negative when
the map and the stored value are non-negative. -/
theorem mapSet_value_nonneg {m : AllocMap} {k : String} {v : AllocEntry}
    (hm : ∀ kv ∈ m, 0 ≤ kv.2.value) (hv : 0 ≤ v.value) :
    ∀ kv ∈ mapSet m k v, 0 ≤ kv.2.value := by
  intro kv hkv
  rw [mapSet] at hkv
  split at hkv
  · obtain ⟨kv0, hkv0, rfl⟩ := List.mem_map.mp hkv
    by_cases hk : kv0.1 = k
    · rw [if_pos hk]
      exact hv
    · rw [if_neg hk]
      exact hm kv0 hkv0
  · rcases List.mem_append.mp hkv with h | h
    · exact hm kv h
    · rw [List.mem_singleton] at h
      subst h
      exact hv

/-- The in-place update keeps the group values non-negative when the update
function does. -/
theorem mapUpdate_value_nonneg {m : AllocMap} {k : String} {f : AllocEntry → AllocEntry}
    (hm : ∀ kv ∈ m, 0 ≤ kv.2.value)
    (hf : ∀ e : AllocEntry, 0 ≤ e.value → 0 ≤ (f e).value) :
    ∀ kv ∈ mapUpdate m k f, 0 ≤ kv.2.value := by
  intro kv hkv
  rw [mapUpdate] at hkv
  obtain ⟨kv0, hkv0, rfl⟩ := List.mem_map.mp hkv
  by_cases hk : kv0.1 = k
  · rw [if_pos hk]
    exact hf kv0.2 (hm kv0 hkv0)
  · rw [if_neg hk]
    exact hm kv0 hkv0

/-- Folding one backend allocation item preserves non-negative group
values. -/
theorem addBackendItem_value_nonneg {m : AllocMap} {i : AllocItem}
    (hm : ∀ kv ∈ m, 0 ≤ kv.2.value) (hi : 0 ≤ i.value.getD 0) :
    ∀ kv ∈ addBackendItem m i, 0 ≤ kv.2.value := by
  intro kv hkv
  rw [addBackendItem] at hkv
  exact mapSet_value_nonneg hm hi kv hkv

/-- Folding one manual holding preserves non-negative group values when its
current value is non-negative. -/
theorem addManualHolding_value_nonneg {m : AllocMap} {h : Holding}
    (hm : ∀ kv ∈ m, 0 ≤ kv.2.value) (hh : 0 ≤ h.current_value.getD 0) :
    ∀ kv ∈ addManualHolding m h, 0 ≤ kv.2.value := by
  intro kv hkv
  rw [addManualHolding] at hkv
  refine mapUpdate_value_nonneg ?_ ?_ kv hkv
  · intro kv1 hkv1
    split at hkv1
    · exact hm kv1 hkv1
    · rcases List.mem_append.mp hkv1 with h1 | h1
      · exact hm kv1 h1
      · rw [List.mem_singleton] at h1
        subst h1
        exact le_refl 0
  · intro e he
    exact add_nonneg he hh

/-- The backend fold preserves non-negative group values. -/
theorem foldl_addBackendItem_nonneg (l : List AllocItem) :
    ∀ m : AllocMap, (∀ kv ∈ m, 0 ≤ kv.2.value) → (∀ i ∈ l, 0 ≤ i.value.getD 0) →
    ∀ kv ∈ l.foldl addBackendItem m, 0 ≤ kv.2.value := by
  induction l with
  | nil =>
    intro m hm _
    simpa using hm
  | cons i l ih =>
    intro m hm hl
    rw [List.foldl_cons]
    exact ih _ (addBackendItem_value_nonneg hm (hl i (List.mem_cons_self i l)))
      (fun j hj => hl j (List.mem_cons_of_mem _ hj))

/-- The manual-holdings fold preserves non-negative group values. -/
theorem foldl_addManualHolding_nonneg (l : List Holding) :
    ∀ m : AllocMap, (∀ kv ∈ m, 0 ≤ kv.2.value) →
    (∀ h ∈ l, 0 ≤ h.current_value.getD 0) →
    ∀ kv ∈ l.foldl addManualHolding m, 0 ≤ kv.2.value := by
  induction l with
  | nil =>
    intro m hm _
    simpa using hm
  | cons h l ih =>
    intro m hm hl
    rw [List.foldl_cons]
    exact ih _ (addManualHolding_value_nonneg hm (hl h (List.mem_cons_self h l)))
      (fun j hj => hl j (List.mem_cons_of_mem _ hj))

/-- With non-negative inputs every grouped entry has a non-negative value. -/
theorem combinedAllocationEntries_nonneg (items : List AllocItem)
    (manual : List Holding)
    (hitems : ∀ i ∈ items, 0 ≤ i.value.getD 0)
    (hmanual : ∀ h ∈ manual, 0 ≤ h.current_value.getD 0) :
    ∀ e ∈ combinedAllocationEntries items manual, 0 ≤ e.value := by
  intro e he
  rw [combinedAllocationEntries] at he
  obtain ⟨kv, hkv, rfl⟩ := List.mem_map.mp he
  exact foldl_addManualHolding_nonneg manual _
    (foldl_addBackendItem_nonneg items [] (by simp) hitems) hmanual kv hkv

/-- Left fold of additions against an accumulator is the accumulator plus the
list sum. -/
theorem foldl_add_value (l : List AllocEntry) (init : ℚ) :
    l.foldl (fun s e => s + e.value) init
      = init + (l.map (fun e => e.value)).sum := by
  induction l generalizing init with
  | nil => simp
  | cons a l ih =>
    rw [List.foldl_cons, ih]
    simp only [List.map_cons, List.sum_cons]
    ring

/-- The combined total is the sum of the grouped values. -/
theorem allocationTotal_eq_sum (items : List AllocItem) (manual : List Holding) :
    allocationTotal items manual
      = ((combinedAllocationEntries items manual).map (fun e => e.value)).sum := by
  rw [allocationTotal, foldl_add_value]
  ring

/-- Filtering does not change a sum when every dropped element contributes
zero. -/
theorem sum_map_filter_eq {β : Type} (l : List β) (p : β → Bool) (g : β → ℚ)
    (h : ∀ x ∈ l, p x = false → g x = 0) :
    ((l.filter p).map g).sum = (l.map g).sum := by
  induction l with
  | nil => simp
  | cons a l ih =>
    have ih2 := ih (fun x hx hpx => h x (List.mem_cons_of_mem a hx) hpx)
    by_cases hp : p a = true
    · simp [List.filter_cons, hp, ih2]
    · have ha := h a (List.mem_cons_self a l) (by simpa using hp)
      simp [List.filter_cons, hp, ih2, ha]

/-- Triangle-inequality bound: two sums over the same list differ by at most
the length times a uniform per-element bound. -/
theorem sum_map_sub_abs_le {β : Type} (l : List β) (f g : β → ℚ) (c : ℚ)
    (h : ∀ x ∈ l, |f x - g x| ≤ c) :
    |(l.map f).sum - (l.map g).sum| ≤ l.length * c := by
  induction l with
  | nil => simp
  | cons a l ih =>
    have ih2 := ih (fun x hx => h x (List.mem_cons_of_mem a hx))
    have ha := h a (List.mem_cons_self a l)
    simp only [List.map_cons, List.sum_cons, List.length_cons]
    have hr : f a + (l.map f).sum - (g a + (l.map g).sum)
        = (f a - g a) + ((l.map f).sum - (l.map g).sum) := by ring
    rw [hr]
    have habs := abs_add (f a - g a) ((l.map f).sum - (l.map g).sum)
    push_cast
    linarith

/-- Summing `value / t * k` over a list scales the summed values. -/
theorem sum_map_div_mul (l : List AllocEntry) (t k : ℚ) :
    (l.map (fun e => e.value / t * k)).sum
      = (l.map (fun e => e.value)).sum / t * k := by
  induction l with
  | nil => simp
  | cons a l ih =>
    simp only [List.map_cons, List.sum_cons, ih]
    ring

/-- The combined allocation, written without its local lets. -/
theorem getCombinedAssetAllocation_eq (items : List AllocItem)
    (manual : List Holding) :
    getCombinedAssetAllocation items manual
      = sortByDesc (fun o : AllocOut => o.value)
        ((((combinedAllocationEntries items manual).map (fun e =>
          ({ asset_class := e.asset_class, value := e.value,
             scheme_count := e.scheme_count,
             percentage := pctOf (allocationTotal items manual) e.value
             } : AllocOut)))).filter (fun o => decide (0 < o.value))) := rfl

/-- Claim C5: with non-negative input values and a positive combined total,
the percentages of the combined allocation table sum to 100 up to the
rounding slack of 0.005 per group; with a zero combined total every
percentage is 0. -/
theorem claim_C5_percentage_sum (items : List AllocItem) (manual : List Holding)
    (hitems : ∀ i ∈ items, 0 ≤ i.value.getD 0)
    (hmanual : ∀ h ∈ manual, 0 ≤ h.current_value.getD 0) :
    (0 < allocationTotal items manual →
      |((getCombinedAssetAllocation items manual).map (fun o => o.percentage)).sum
          - 100|
        ≤ (combinedAllocationEntries items manual).length * (1 / 200))
    ∧ (allocationTotal items manual = 0 →
        ∀ o ∈ getCombinedAssetAllocation items manual, o.percentage = 0) := by
  constructor
  · intro htot
    have e1 : ((getCombinedAssetAllocation items manual).map
          (fun o => o.percentage)).sum
        = ((combinedAllocationEntries items manual).map
          (fun e => pctOf (allocationTotal items manual) e.value)).sum := by
      rw [getCombinedAssetAllocation_eq]
      rw [((sortByDesc_perm (fun o : AllocOut => o.value) _).map
        (fun o : AllocOut => o.percentage)).sum_eq]
      rw [sum_map_filter_eq _ _ _ ?_]
      · rw [List.map_map]
        rfl
      · intro x hx hpx
        obtain ⟨e, he, rfl⟩ := List.mem_map.mp hx
        have hnn := combinedAllocationEntries_nonneg items manual hitems hmanual e he
        have hle : ¬ 0 < e.value := by simpa using hpx
        have hz : e.value = 0 := le_antisymm (not_lt.mp hle) hnn
        show pctOf (allocationTotal items manual) e.value = 0
        rw [pctOf, if_pos htot, hz]
        norm_num [jsRound_zero]
    have hq : ((combinedAllocationEntries items manual).map
        (fun e => e.value / allocationTotal items manual * 100)).sum = 100 := by
      rw [sum_map_div_mul, ← allocationTotal_eq_sum,
        div_self (ne_of_gt htot)]
      norm_num
    have hb : ∀ e ∈ combinedAllocationEntries items manual,
        |pctOf (allocationTotal items manual) e.value
          - e.value / allocationTotal items manual * 100| ≤ 1 / 200 := by
      intro e _
      rw [pctOf, if_pos htot]
      have h1 : e.value / allocationTotal items manual * 100
          = e.value / allocationTotal items manual * 10000 / 100 := by ring
      rw [h1, div_sub_div_same, abs_div]
      have h100 : |(100 : ℚ)| = 100 := by norm_num
      rw [h100]
      have h2 := abs_jsRound_sub_le
        (e.value / allocationTotal items manual * 10000)
      linarith
    rw [e1, ← hq]
    exact sum_map_sub_abs_le _ _ _ _ hb
  · intro htot o ho
    obtain ⟨e, _, rfl⟩ := mem_getCombinedAssetAllocation ho
    simp [pctOf, htot]

/-- Witness for claim C5 at the concrete 97-of-800 input, where the rounded
percentages are 87.88 and 12.13 and the slack bound is attained exactly. -/
theorem claim_C5_witness :
    0 < allocationTotal exItems []
    ∧ |((getCombinedAssetAllocation exItems []).map (fun o => o.percentage)).sum
          - 100|
        ≤ (combinedAllocationEntries exItems []).length * (1 / 200) := by
  have htot : 0 < allocationTotal exItems [] := by
    rw [exItems_total]
    norm_num
  have hitems : ∀ i ∈ exItems, 0 ≤ i.value.getD 0 := by
    intro i hi
    simp only [exItems, List.mem_cons, List.mem_singleton] at hi
    rcases hi with rfl | rfl | h
    · norm_num
    · norm_num
    · simp at h
  exact ⟨htot, (claim_C5_percentage_sum exItems [] hitems (by simp)).1 htot⟩

end WealthAdvisor
